import Mathlib

/-!
Shallow embedding of `make_image_grid.py`: a tool that assembles the images
of a folder into one grid-layout composite image.

Modelling conventions:
* Python integers are `Int` (configuration fields may be negative), image
  pixel dimensions are `Nat`.
* Python float arithmetic (`/`, `math.sqrt`, `math.ceil`) is modelled
  exactly over `ℚ` respectively by exact integer characterisations.
* Python `a or b` on integers returns `a` when it is truthy (nonzero).
* The filesystem is a list of directory entries (name plus a regular-file
  flag); PIL image handles are reduced to their pixel sizes.
-/

/-- Python `a or b` for integers: `a` if nonzero (truthy), else `b`. -/
def pyOr (a b : Int) : Int := if a ≠ 0 then a else b

/-- One directory entry: its file name and whether it is a regular file. -/
structure Entry where
  name : String
  isFile : Bool
deriving DecidableEq, Repr

/-- The recognised image extensions (`IMAGE_EXTS` in the source). -/
def IMAGE_EXTS : List String :=
  [".jpg", ".jpeg", ".png", ".bmp", ".gif", ".tif", ".tiff", ".webp"]

/-- Index of the last occurrence of `c` in the character list (Python
`str.rfind`), `none` when absent. -/
def rfindChar (c : Char) : List Char → Option Nat
  | [] => none
  | x :: xs =>
    match rfindChar c xs with
    | some i => some (i + 1)
    | none => if x == c then some 0 else none

/-- Python `pathlib.PurePath.suffix` on a file name: the part of the name
from its last dot on, but only when that dot is neither the first nor the
last character; otherwise the empty string. -/
def pySuffix (name : String) : String :=
  let cs := name.toList
  match rfindChar '.' cs with
  | none => ""
  | some i => if 0 < i ∧ i + 1 < cs.length then String.mk (cs.drop i) else ""

/-- Python `str.lower()`: lower-case every character (the recognised
extensions are ASCII, where `Char.toLower` matches Python). -/
def pyLower (s : String) : String := String.mk (s.toList.map Char.toLower)

/-- Sorting of directory entries by name, as Python `sorted(folder.iterdir())`
does for entries of one directory. -/
def sortByName (l : List Entry) : List Entry :=
  l.insertionSort fun a b => a.name ≤ b.name

/-- `iter_images`: directory entries sorted by name, keeping the regular
files whose lower-cased extension is recognised. -/
def iter_images (dir : List Entry) : List Entry :=
  (sortByName dir).filter fun e =>
    e.isFile && IMAGE_EXTS.contains (pyLower (pySuffix e.name))

/-- Least `k`, starting the search at `k₀` with the given fuel, such that
`n ≤ k * k`. Helper for `ceilSqrt`. -/
def ceilSqrtFrom (n : Nat) : Nat → Nat → Nat
  | 0, k => k
  | fuel + 1, k => if n ≤ k * k then k else ceilSqrtFrom n fuel (k + 1)

/-- `math.ceil(math.sqrt(n))` modelled exactly: the least natural `k` with
`n ≤ k * k`. -/
def ceilSqrt (n : Nat) : Nat := ceilSqrtFrom n (n + 1) 0

/-- `math.ceil(a / b)` for integers `a`, `b` with exact rational division:
the negated floor division of the negation. -/
def cdiv (a b : Int) : Int := -((-a).fdiv b)

/-- The configuration fields of the argument parser that feed the geometry:
`--cols`, `--cell-width`, `--cell-height` (each `0` meaning auto) and
`--padding`. -/
structure Args where
  cols : Int
  cellWidth : Int
  cellHeight : Int
  padding : Int
deriving DecidableEq, Repr

/-- The grid geometry computed by `main`. -/
structure Layout where
  cols : Int
  rows : Int
  cellW : Int
  cellH : Int
  canvasW : Int
  canvasH : Int
deriving DecidableEq, Repr

/-- `max(w for w, _ in sizes)` (the fold's base `0` is only reached on the
empty list, which `main` has already ruled out). -/
def maxW (sizes : List (Nat × Nat)) : Nat := (sizes.map Prod.fst).foldr max 0

/-- `max(h for _, h in sizes)`. -/
def maxH (sizes : List (Nat × Nat)) : Nat := (sizes.map Prod.snd).foldr max 0

/-- The geometry block of `main` (lines 88–98 of the source): resolve the
cell size (`0` falls back to the maxima of the natural sizes), the column
count (`0` falls back to `ceil(sqrt(n))`), the row count, and the canvas
size. -/
def planLayout (a : Args) (sizes : List (Nat × Nat)) : Layout :=
  let n : Nat := sizes.length
  let cell_w : Int := pyOr a.cellWidth (maxW sizes)
  let cell_h : Int := pyOr a.cellHeight (maxH sizes)
  let cols : Int := pyOr a.cols (ceilSqrt n)
  let rows : Int := cdiv n cols
  { cols := cols, rows := rows, cellW := cell_w, cellH := cell_h,
    canvasW := cols * cell_w + (cols - 1) * a.padding,
    canvasH := rows * cell_h + (rows - 1) * a.padding }

/-- The scale factor of `load_and_fit`:
`min(cell_w / im.width, cell_h / im.height)`, exactly over `ℚ`. -/
def scaleQ (srcW srcH : Nat) (w h : Int) : ℚ :=
  min ((w : ℚ) / (srcW : ℚ)) ((h : ℚ) / (srcH : ℚ))

/-- The geometry produced by `load_and_fit`: the resized dimensions and the
offset of the paste inside the cell. -/
structure CellRender where
  newW : Int
  newH : Int
  offX : Int
  offY : Int
deriving DecidableEq, Repr

/-- The numeric content of `load_and_fit` (lines 19–29 of the source):
`new_w = max(1, int(im.width * scale))` and the like, with Python `int()`
on these nonnegative values being the floor, and `(cell_w - new_w) // 2`
being floor division. -/
def load_and_fit (srcW srcH : Nat) (w h : Int) : CellRender :=
  let scale : ℚ := scaleQ srcW srcH w h
  let new_w : Int := max 1 ⌊(srcW : ℚ) * scale⌋
  let new_h : Int := max 1 ⌊(srcH : ℚ) * scale⌋
  { newW := new_w, newH := new_h,
    offX := (w - new_w).fdiv 2,
    offY := (h - new_h).fdiv 2 }

/-- The resize rule as the spec words it: `newWidth = max(1, round(srcWidth·scale))`,
`newHeight = max(1, round(srcHeight·scale))` — rounding to nearest instead
of the code's truncation. Kept separate to compare against `load_and_fit`. -/
def specRoundFit (srcW srcH : Nat) (w h : Int) : Int × Int :=
  (max 1 (round ((srcW : ℚ) * scaleQ srcW srcH w h)),
   max 1 (round ((srcH : ℚ) * scaleQ srcW srcH w h)))

/-- The paste positions of the composition loop of `main` (lines 102–108):
for index `idx`, row `idx // cols`, column `idx % cols`, pasted at
`(col * (cell_w + pad), row * (cell_h + pad))`. -/
def pastePositions (n : Nat) (cols cellW cellH pad : Int) : List (Int × Int) :=
  (List.range n).map fun (idx : Nat) =>
    let r : Int := Int.fdiv (idx : Int) cols
    let c : Int := Int.fmod (idx : Int) cols
    (c * (cellW + pad), r * (cellH + pad))

/-- The fatal-error conditions of `main` before any canvas exists. -/
inductive RunError where
  | notADirectory
  | noImagesFound
deriving DecidableEq, Repr

/-- The driver `main` after argument parsing: fail when the folder is not a
directory, enumerate images, fail when none are found, otherwise plan the
layout and compose; `.ok` carries the layout and the paste positions of the
composed canvas that is then written to the output path (errors happen
before any canvas is created, so no output file is written on them). -/
def mainRun (isDir : Bool) (dir : List Entry) (sizeOf : Entry → Nat × Nat)
    (a : Args) : Except RunError (Layout × List (Int × Int)) :=
  if !isDir then .error .notADirectory
  else
    let images := iter_images dir
    if images.isEmpty then .error .noImagesFound
    else
      let sizes := images.map sizeOf
      let L := planLayout a sizes
      .ok (L, pastePositions images.length L.cols L.cellW L.cellH a.padding)

/-! ## Supporting lemmas -/

theorem ceilSqrtFrom_sq_ge (n : Nat) :
    ∀ fuel k, n ≤ (k + fuel) * (k + fuel) →
      n ≤ ceilSqrtFrom n fuel k * ceilSqrtFrom n fuel k
  | 0, k, hk => by simpa [ceilSqrtFrom] using hk
  | fuel + 1, k, hk => by
    by_cases h : n ≤ k * k
    · simp [ceilSqrtFrom, h]
    · have hk' : n ≤ (k + 1 + fuel) * (k + 1 + fuel) := by
        have : k + (fuel + 1) = k + 1 + fuel := by omega
        simpa [this] using hk
      simpa [ceilSqrtFrom, h] using ceilSqrtFrom_sq_ge n fuel (k + 1) hk'

theorem ceilSqrtFrom_min (n : Nat) :
    ∀ fuel k, (∀ j, j < k → j * j < n) →
      ∀ j, j < ceilSqrtFrom n fuel k → j * j < n
  | 0, k, hbelow, j, hj => hbelow j (by simpa [ceilSqrtFrom] using hj)
  | fuel + 1, k, hbelow, j, hj => by
    by_cases h : n ≤ k * k
    · exact hbelow j (by simpa [ceilSqrtFrom, h] using hj)
    · refine ceilSqrtFrom_min n fuel (k + 1) ?_ j (by simpa [ceilSqrtFrom, h] using hj)
      intro j' hj'
      rcases Nat.lt_succ_iff_lt_or_eq.mp hj' with h' | h'
      · exact hbelow j' h'
      · subst h'; omega

theorem ceilSqrt_sq_ge (n : Nat) : n ≤ ceilSqrt n * ceilSqrt n := by
  refine ceilSqrtFrom_sq_ge n (n + 1) 0 ?_
  calc n ≤ n + 1 := by omega
    _ ≤ (0 + (n + 1)) * (0 + (n + 1)) := by nlinarith

theorem ceilSqrt_min (n : Nat) : ∀ j, j < ceilSqrt n → j * j < n :=
  ceilSqrtFrom_min n (n + 1) 0 (by omega)

theorem ceilSqrt_pos (n : Nat) (hn : 1 ≤ n) : 1 ≤ ceilSqrt n := by
  by_contra h
  have h0 : ceilSqrt n = 0 := by omega
  have := ceilSqrt_sq_ge n
  rw [h0] at this
  omega

theorem cdiv_spec (n : Nat) (c : Int) (_hn : 1 ≤ n) (hc : 1 ≤ c) :
    (n : Int) ≤ c * cdiv n c ∧ c * (cdiv n c - 1) < (n : Int) := by
  unfold cdiv
  rw [Int.fdiv_eq_ediv _ (by omega : (0 : Int) ≤ c)]
  have hmod : c * (-(n : Int) / c) + -(n : Int) % c = -(n : Int) :=
    Int.ediv_add_emod _ _
  have hr0 : 0 ≤ -(n : Int) % c := Int.emod_nonneg _ (by omega)
  have hrlt : -(n : Int) % c < c := Int.emod_lt_of_pos _ (by omega)
  have key : c * -(-(n : Int) / c) = (n : Int) + -(n : Int) % c := by
    linear_combination -hmod
  constructor
  · linarith
  · have : c * (-(-(n : Int) / c) - 1) = c * -(-(n : Int) / c) - c := by ring
    rw [this, key]
    linarith

/-! ## Claim theorems -/

/-- C1: for every non-empty list of input images, the canvas dimensions
satisfy `canvasWidth = columns·cellWidth + (columns−1)·padding` and
`canvasHeight = rows·cellHeight + (rows−1)·padding` exactly, with
`rows = ceil(n / columns)`; padding enters only between cells, not around
the outer border. -/
theorem canvas_dims (a : Args) (sizes : List (Nat × Nat)) (_hne : sizes ≠ []) :
    (planLayout a sizes).canvasW =
      (planLayout a sizes).cols * (planLayout a sizes).cellW +
        ((planLayout a sizes).cols - 1) * a.padding ∧
    (planLayout a sizes).canvasH =
      (planLayout a sizes).rows * (planLayout a sizes).cellH +
        ((planLayout a sizes).rows - 1) * a.padding ∧
    (planLayout a sizes).rows = cdiv sizes.length (planLayout a sizes).cols :=
  ⟨rfl, rfl, rfl⟩

/-- Witness for C1 at a concrete configuration and image list. -/
theorem canvas_dims_witness :
    (planLayout ⟨0, 0, 0, 8⟩ [(2, 3)]).canvasW =
      (planLayout ⟨0, 0, 0, 8⟩ [(2, 3)]).cols * (planLayout ⟨0, 0, 0, 8⟩ [(2, 3)]).cellW +
        ((planLayout ⟨0, 0, 0, 8⟩ [(2, 3)]).cols - 1) * (8 : Int) ∧
    (planLayout ⟨0, 0, 0, 8⟩ [(2, 3)]).canvasH =
      (planLayout ⟨0, 0, 0, 8⟩ [(2, 3)]).rows * (planLayout ⟨0, 0, 0, 8⟩ [(2, 3)]).cellH +
        ((planLayout ⟨0, 0, 0, 8⟩ [(2, 3)]).rows - 1) * (8 : Int) ∧
    (planLayout ⟨0, 0, 0, 8⟩ [(2, 3)]).rows =
      cdiv ([((2 : Nat), (3 : Nat))].length) (planLayout ⟨0, 0, 0, 8⟩ [(2, 3)]).cols :=
  canvas_dims ⟨0, 0, 0, 8⟩ [(2, 3)] (by decide)

/-- C3 counterexample: a caller-supplied `cols = -1` is NOT treated as
auto — with 4 images the code uses `-1` as the column count (auto would
give `ceil(sqrt 4) = 2`), and the resulting value is not `≥ 1`. -/
theorem cols_counterexample :
    (planLayout ⟨-1, 0, 0, 8⟩ [(1, 1), (1, 1), (1, 1), (1, 1)]).cols = -1 ∧
    ¬(1 ≤ (planLayout ⟨-1, 0, 0, 8⟩ [(1, 1), (1, 1), (1, 1), (1, 1)]).cols) ∧
    ceilSqrt 4 = 2 := by
  decide

/-- C3 amended: the column count is the caller-supplied `cols` whenever it
is nonzero (negative values are used as-is, giving a column count below 1);
only `cols = 0` falls back to `ceil(sqrt n)`, which is `≥ 1`; any supplied
`cols ≥ 1` likewise yields a column count `≥ 1`. -/
theorem cols_amended (a : Args) (sizes : List (Nat × Nat)) (hne : sizes ≠ []) :
    (a.cols ≠ 0 → (planLayout a sizes).cols = a.cols) ∧
    (a.cols = 0 →
      (planLayout a sizes).cols = (ceilSqrt sizes.length : Int) ∧
        1 ≤ (planLayout a sizes).cols) ∧
    (1 ≤ a.cols → 1 ≤ (planLayout a sizes).cols) := by
  have hn : 1 ≤ sizes.length := List.length_pos.mpr hne
  refine ⟨fun hc => ?_, fun hc => ⟨?_, ?_⟩, fun hc => ?_⟩
  · simp [planLayout, pyOr, hc]
  · simp [planLayout, pyOr, hc]
  · simp [planLayout, pyOr, hc]
    exact_mod_cast ceilSqrt_pos _ hn
  · have hc0 : a.cols ≠ 0 := by omega
    simp [planLayout, pyOr, hc0]
    omega

/-- Witness for C3 (amended) at a concrete configuration. -/
theorem cols_amended_witness :
    ((0 : Int) ≠ 0 → (planLayout ⟨0, 0, 0, 8⟩ [(1, 1), (2, 2)]).cols = 0) ∧
    ((0 : Int) = 0 →
      (planLayout ⟨0, 0, 0, 8⟩ [(1, 1), (2, 2)]).cols =
          (ceilSqrt ([((1 : Nat), (1 : Nat)), (2, 2)].length) : Int) ∧
        1 ≤ (planLayout ⟨0, 0, 0, 8⟩ [(1, 1), (2, 2)]).cols) ∧
    ((1 : Int) ≤ 0 → 1 ≤ (planLayout ⟨0, 0, 0, 8⟩ [(1, 1), (2, 2)]).cols) :=
  cols_amended ⟨0, 0, 0, 8⟩ [(1, 1), (2, 2)] (by decide)

/-- C4: for `n ≥ 1` and `columns ≥ 1`, the row count
`rows = ceil(n / columns)` (the `cdiv` of the layout computation) satisfies
`columns·rows ≥ n` and `columns·(rows−1) < n`: it is the minimal row count
covering all `n` images. -/
theorem rows_cover_minimal (n : Nat) (c : Int) (hn : 1 ≤ n) (hc : 1 ≤ c) :
    (n : Int) ≤ c * cdiv n c ∧ c * (cdiv n c - 1) < (n : Int) :=
  cdiv_spec n c hn hc

/-- Witness for C4 at `n = 5`, `columns = 2`. -/
theorem rows_cover_minimal_witness :
    ((5 : Nat) : Int) ≤ 2 * cdiv 5 2 ∧ 2 * (cdiv 5 2 - 1) < ((5 : Nat) : Int) :=
  rows_cover_minimal 5 2 (by decide) (by decide)

theorem scaleQ_nonneg (srcW srcH : Nat) (w h : Int) (hw : 0 ≤ w) (hh : 0 ≤ h) :
    0 ≤ scaleQ srcW srcH w h := by
  unfold scaleQ
  apply le_min
  · apply div_nonneg
    · exact_mod_cast hw
    · exact_mod_cast Nat.zero_le srcW
  · apply div_nonneg
    · exact_mod_cast hh
    · exact_mod_cast Nat.zero_le srcH

theorem mul_scaleQ_fst_le (srcW srcH : Nat) (w h : Int) (hs : 1 ≤ srcW) :
    (srcW : ℚ) * scaleQ srcW srcH w h ≤ (w : ℚ) := by
  have hs0 : (0 : ℚ) < (srcW : ℚ) := by exact_mod_cast hs
  calc (srcW : ℚ) * scaleQ srcW srcH w h
      ≤ (srcW : ℚ) * ((w : ℚ) / (srcW : ℚ)) :=
        mul_le_mul_of_nonneg_left (min_le_left _ _) (le_of_lt hs0)
    _ = (w : ℚ) := by field_simp

theorem mul_scaleQ_snd_le (srcW srcH : Nat) (w h : Int) (hs : 1 ≤ srcH) :
    (srcH : ℚ) * scaleQ srcW srcH w h ≤ (h : ℚ) := by
  have hs0 : (0 : ℚ) < (srcH : ℚ) := by exact_mod_cast hs
  calc (srcH : ℚ) * scaleQ srcW srcH w h
      ≤ (srcH : ℚ) * ((h : ℚ) / (srcH : ℚ)) :=
        mul_le_mul_of_nonneg_left (min_le_right _ _) (le_of_lt hs0)
    _ = (h : ℚ) := by field_simp

theorem max_one_floor_le {x : ℚ} {b : Int} (hb : 1 ≤ b) (hx : x ≤ (b : ℚ)) :
    max 1 ⌊x⌋ ≤ b := by
  apply max_le hb
  calc ⌊x⌋ ≤ ⌊(b : ℚ)⌋ := Int.floor_le_floor hx
    _ = b := Int.floor_intCast b

theorem max_one_floor_near {x : ℚ} (hx : 0 ≤ x) :
    |((max 1 ⌊x⌋ : Int) : ℚ) - x| ≤ 1 := by
  rcases le_or_lt 1 ⌊x⌋ with h | h
  · rw [max_eq_right h, abs_le]
    have h1 := Int.floor_le x
    have h2 := Int.lt_floor_add_one x
    constructor <;> linarith
  · have h0 : 0 ≤ ⌊x⌋ := Int.floor_nonneg.mpr hx
    have h0' : ⌊x⌋ = 0 := by omega
    have hx1 : x < 1 := by
      have := Int.lt_floor_add_one x
      rw [h0'] at this
      push_cast at this
      linarith
    rw [max_eq_left (by omega), abs_le]
    constructor <;> push_cast <;> linarith

/-- C2 counterexample: for a 4×2 source in a 3×6 cell, `scale = 3/4`; the
code truncates `2 · 3/4 = 1.5` to `1`, while the spec's
`max(1, round(srcHeight·scale))` gives `2`. -/
theorem fit_round_counterexample :
    (load_and_fit 4 2 3 6).newH = 1 ∧ (specRoundFit 4 2 3 6).2 = 2 ∧
    (load_and_fit 4 2 3 6).newH ≠ (specRoundFit 4 2 3 6).2 := by
  have h1 : (load_and_fit 4 2 3 6).newH = 1 := by
    simp [load_and_fit, scaleQ]
    norm_num
  have h2 : (specRoundFit 4 2 3 6).2 = 2 := by
    simp [specRoundFit, scaleQ, round_eq]
    norm_num
  exact ⟨h1, h2, by rw [h1, h2]; decide⟩

/-- C2 amended: with `scale = min(w / srcWidth, h / srcHeight)`, the code
computes `newWidth = max(1, floor(srcWidth·scale))` and
`newHeight = max(1, floor(srcHeight·scale))` — Python `int()` truncation
(floor on these nonnegative values), not rounding to nearest; the floor of
1 pixel still applies. -/
theorem fit_floor_amended (srcW srcH : Nat) (w h : Int)
    (_h1 : 1 ≤ srcW) (_h2 : 1 ≤ srcH) (_h3 : 1 ≤ w) (_h4 : 1 ≤ h) :
    scaleQ srcW srcH w h = min ((w : ℚ) / (srcW : ℚ)) ((h : ℚ) / (srcH : ℚ)) ∧
    (load_and_fit srcW srcH w h).newW = max 1 ⌊(srcW : ℚ) * scaleQ srcW srcH w h⌋ ∧
    (load_and_fit srcW srcH w h).newH = max 1 ⌊(srcH : ℚ) * scaleQ srcW srcH w h⌋ :=
  ⟨rfl, rfl, rfl⟩

/-- Witness for C2 (amended) at the 4×2 source and 3×6 cell. -/
theorem fit_floor_amended_witness :
    scaleQ 4 2 3 6 = min ((3 : ℚ) / ((4 : Nat) : ℚ)) ((6 : ℚ) / ((2 : Nat) : ℚ)) ∧
    (load_and_fit 4 2 3 6).newW = max 1 ⌊((4 : Nat) : ℚ) * scaleQ 4 2 3 6⌋ ∧
    (load_and_fit 4 2 3 6).newH = max 1 ⌊((2 : Nat) : ℚ) * scaleQ 4 2 3 6⌋ :=
  fit_floor_amended 4 2 3 6 (by decide) (by decide) (by decide) (by decide)

/-- C5: for any source of size `srcW×srcH` (≥1 each) rendered into a cell
`w×h` (≥1 each), neither resized dimension exceeds its cell dimension
(scale-to-fit, never cropped), and each resized dimension is within one
pixel of the exactly scaled — hence exactly aspect-ratio-preserving —
value `srcDim·scale`. -/
theorem fit_bounds (srcW srcH : Nat) (w h : Int)
    (hsW : 1 ≤ srcW) (hsH : 1 ≤ srcH) (hw : 1 ≤ w) (hh : 1 ≤ h) :
    (load_and_fit srcW srcH w h).newW ≤ w ∧
    (load_and_fit srcW srcH w h).newH ≤ h ∧
    |(((load_and_fit srcW srcH w h).newW : Int) : ℚ) -
        (srcW : ℚ) * scaleQ srcW srcH w h| ≤ 1 ∧
    |(((load_and_fit srcW srcH w h).newH : Int) : ℚ) -
        (srcH : ℚ) * scaleQ srcW srcH w h| ≤ 1 := by
  have hxW : (srcW : ℚ) * scaleQ srcW srcH w h ≤ (w : ℚ) :=
    mul_scaleQ_fst_le srcW srcH w h hsW
  have hxH : (srcH : ℚ) * scaleQ srcW srcH w h ≤ (h : ℚ) :=
    mul_scaleQ_snd_le srcW srcH w h hsH
  have hs0 : 0 ≤ scaleQ srcW srcH w h :=
    scaleQ_nonneg srcW srcH w h (by omega) (by omega)
  have hW0 : 0 ≤ (srcW : ℚ) * scaleQ srcW srcH w h :=
    mul_nonneg (by exact_mod_cast Nat.zero_le srcW) hs0
  have hH0 : 0 ≤ (srcH : ℚ) * scaleQ srcW srcH w h :=
    mul_nonneg (by exact_mod_cast Nat.zero_le srcH) hs0
  refine ⟨?_, ?_, ?_, ?_⟩
  · exact max_one_floor_le hw hxW
  · exact max_one_floor_le hh hxH
  · exact max_one_floor_near hW0
  · exact max_one_floor_near hH0

/-- Witness for C5 at a 5×2 source in a 3×3 cell. -/
theorem fit_bounds_witness :
    (load_and_fit 5 2 3 3).newW ≤ 3 ∧
    (load_and_fit 5 2 3 3).newH ≤ 3 ∧
    |(((load_and_fit 5 2 3 3).newW : Int) : ℚ) -
        ((5 : Nat) : ℚ) * scaleQ 5 2 3 3| ≤ 1 ∧
    |(((load_and_fit 5 2 3 3).newH : Int) : ℚ) -
        ((2 : Nat) : ℚ) * scaleQ 5 2 3 3| ≤ 1 :=
  fit_bounds 5 2 3 3 (by decide) (by decide) (by decide) (by decide)

theorem fdiv_two_eq_floor (a : Int) : a.fdiv 2 = ⌊(a : ℚ) / 2⌋ := by
  rw [Int.fdiv_eq_ediv _ (by norm_num)]
  have h := Rat.floor_intCast_div_natCast a 2
  push_cast at h
  omega

/-- C6: the offset at which the resized image is composited within its
cell is exactly `(floor((w − newWidth)/2), floor((h − newHeight)/2))` —
the code's `//` is integer floor division on both axes. -/
theorem center_offsets (srcW srcH : Nat) (w h : Int) :
    (load_and_fit srcW srcH w h).offX =
      ⌊(((w - (load_and_fit srcW srcH w h).newW : Int)) : ℚ) / 2⌋ ∧
    (load_and_fit srcW srcH w h).offY =
      ⌊(((h - (load_and_fit srcW srcH w h).newH : Int)) : ℚ) / 2⌋ :=
  ⟨fdiv_two_eq_floor _, fdiv_two_eq_floor _⟩

/-- C7: the cell for the 0-based image index `i` is pasted at
`x = (i mod columns)·(cellWidth + padding)`,
`y = (i div columns)·(cellHeight + padding)` — row-major placement (the
first image, `i = 0`, lands at the top-left corner `(0, 0)`). -/
theorem paste_positions_rowmajor (n : Nat) (cols cellW cellH pad : Int)
    (hc : 1 ≤ cols) (i : Nat) (hi : i < n) :
    (pastePositions n cols cellW cellH pad)[i]? =
      some (((i : Int) % cols) * (cellW + pad), ((i : Int) / cols) * (cellH + pad)) := by
  unfold pastePositions
  rw [List.getElem?_map, List.getElem?_range hi]
  simp [Int.fmod_eq_emod _ (by omega : (0 : Int) ≤ cols),
    Int.fdiv_eq_ediv _ (by omega : (0 : Int) ≤ cols)]

/-- Witness for C7: five images, two columns, index `i = 3` goes to row 1,
column 1. -/
theorem paste_positions_rowmajor_witness :
    (pastePositions 5 2 4 7 8)[3]? =
      some ((((3 : Nat) : Int) % 2) * (4 + 8), (((3 : Nat) : Int) / 2) * (7 + 8)) :=
  paste_positions_rowmajor 5 2 4 7 8 (by decide) 3 (by decide)

instance : IsTotal Entry fun a b => a.name ≤ b.name :=
  ⟨fun a b => le_total a.name b.name⟩

instance : IsTrans Entry fun a b => a.name ≤ b.name :=
  ⟨fun _ _ _ hab hbc => le_trans hab hbc⟩

/-- C8: the file enumerator produces exactly the regular files of the
directory whose extension (the part from the final dot, compared
case-insensitively) is one of jpg/jpeg/png/bmp/gif/tif/tiff/webp, in a
sequence sorted by name; being a pure function of the directory listing,
the order is deterministic for an unchanged directory. -/
theorem iter_images_characterisation (dir : List Entry) :
    (∀ e : Entry, e ∈ iter_images dir ↔
      e ∈ dir ∧ e.isFile = true ∧ pyLower (pySuffix e.name) ∈ IMAGE_EXTS) ∧
    (iter_images dir).Pairwise (fun a b => a.name ≤ b.name) := by
  constructor
  · intro e
    unfold iter_images sortByName
    rw [List.mem_filter, (List.perm_insertionSort _ dir).mem_iff]
    simp [and_assoc]
  · have hsorted : (sortByName dir).Pairwise fun a b => a.name ≤ b.name :=
      List.sorted_insertionSort _ dir
    exact hsorted.sublist (List.filter_sublist _)

/-- C9: when the enumerated image sequence of the (existing) folder is
empty, the run ends in the `noImagesFound` fatal condition; in the
embedding `.ok` is the only outcome that composes a canvas and writes the
output file, so the error outcome writes nothing and occurs before any
canvas exists. -/
theorem empty_folder_no_output (dir : List Entry) (szOf : Entry → Nat × Nat)
    (a : Args) (h : iter_images dir = []) :
    mainRun true dir szOf a = .error .noImagesFound ∧
    ∀ out, mainRun true dir szOf a ≠ .ok out := by
  have hmain : mainRun true dir szOf a = .error .noImagesFound := by
    unfold mainRun
    simp [h]
  refine ⟨hmain, fun out hk => ?_⟩
  rw [hmain] at hk
  cases hk

/-- Witness for C9: a folder holding only a text file yields the
no-images error and no `.ok` outcome. -/
theorem empty_folder_no_output_witness :
    mainRun true [⟨"readme.txt", true⟩] (fun _ => (1, 1)) ⟨0, 0, 0, 8⟩ =
        .error .noImagesFound ∧
    ∀ out, mainRun true [⟨"readme.txt", true⟩] (fun _ => (1, 1)) ⟨0, 0, 0, 8⟩ ≠
        .ok out :=
  empty_folder_no_output [⟨"readme.txt", true⟩] (fun _ => (1, 1)) ⟨0, 0, 0, 8⟩
    (by decide)

theorem maxW_cons (p : Nat × Nat) (sizes : List (Nat × Nat)) :
    maxW (p :: sizes) = max p.1 (maxW sizes) := rfl

theorem maxH_cons (p : Nat × Nat) (sizes : List (Nat × Nat)) :
    maxH (p :: sizes) = max p.2 (maxH sizes) := rfl

theorem le_maxW {p : Nat × Nat} {sizes : List (Nat × Nat)} (hp : p ∈ sizes) :
    p.1 ≤ maxW sizes := by
  induction sizes with
  | nil => cases hp
  | cons q rest ih =>
    rw [maxW_cons]
    rcases List.mem_cons.mp hp with h | h
    · subst h; exact le_max_left _ _
    · exact le_trans (ih h) (le_max_right _ _)

theorem le_maxH {p : Nat × Nat} {sizes : List (Nat × Nat)} (hp : p ∈ sizes) :
    p.2 ≤ maxH sizes := by
  induction sizes with
  | nil => cases hp
  | cons q rest ih =>
    rw [maxH_cons]
    rcases List.mem_cons.mp hp with h | h
    · subst h; exact le_max_left _ _
    · exact le_trans (ih h) (le_max_right _ _)

/-- C10: when both cell dimensions are configured as 0 (auto), the cell is
`max natural width × max natural height`, every image gets `scale ≥ 1`,
and no image is downscaled: each resized dimension is at least the source
dimension. -/
theorem auto_cell_never_downscales (a : Args) (sizes : List (Nat × Nat))
    (hW : a.cellWidth = 0) (hH : a.cellHeight = 0)
    (hpos : ∀ p ∈ sizes, 1 ≤ p.1 ∧ 1 ≤ p.2) :
    (planLayout a sizes).cellW = (maxW sizes : Int) ∧
    (planLayout a sizes).cellH = (maxH sizes : Int) ∧
    ∀ p ∈ sizes,
      1 ≤ scaleQ p.1 p.2 (planLayout a sizes).cellW (planLayout a sizes).cellH ∧
      (p.1 : Int) ≤
        (load_and_fit p.1 p.2 (planLayout a sizes).cellW (planLayout a sizes).cellH).newW ∧
      (p.2 : Int) ≤
        (load_and_fit p.1 p.2 (planLayout a sizes).cellW (planLayout a sizes).cellH).newH := by
  have hcw : (planLayout a sizes).cellW = (maxW sizes : Int) := by
    simp [planLayout, pyOr, hW]
  have hch : (planLayout a sizes).cellH = (maxH sizes : Int) := by
    simp [planLayout, pyOr, hH]
  refine ⟨hcw, hch, fun p hp => ?_⟩
  obtain ⟨hp1, hp2⟩ := hpos p hp
  have hw1 : p.1 ≤ maxW sizes := le_maxW hp
  have hh1 : p.2 ≤ maxH sizes := le_maxH hp
  have hp1Q : (0 : ℚ) < (p.1 : ℚ) := by exact_mod_cast hp1
  have hp2Q : (0 : ℚ) < (p.2 : ℚ) := by exact_mod_cast hp2
  have hscale : 1 ≤ scaleQ p.1 p.2 (planLayout a sizes).cellW (planLayout a sizes).cellH := by
    rw [hcw, hch]
    unfold scaleQ
    apply le_min
    · rw [le_div_iff₀ hp1Q, one_mul]
      push_cast
      exact_mod_cast hw1
    · rw [le_div_iff₀ hp2Q, one_mul]
      push_cast
      exact_mod_cast hh1
  refine ⟨hscale, ?_, ?_⟩
  · have hfloor : (p.1 : Int) ≤
        ⌊(p.1 : ℚ) * scaleQ p.1 p.2 (planLayout a sizes).cellW (planLayout a sizes).cellH⌋ := by
      rw [Int.le_floor]
      push_cast
      exact le_mul_of_one_le_right (le_of_lt hp1Q) hscale
    exact le_trans hfloor (le_max_right 1 _)
  · have hfloor : (p.2 : Int) ≤
        ⌊(p.2 : ℚ) * scaleQ p.1 p.2 (planLayout a sizes).cellW (planLayout a sizes).cellH⌋ := by
      rw [Int.le_floor]
      push_cast
      exact le_mul_of_one_le_right (le_of_lt hp2Q) hscale
    exact le_trans hfloor (le_max_right 1 _)

/-- Witness for C10: two images of sizes 2×3 and 4×1, both cell dimensions
auto. -/
theorem auto_cell_never_downscales_witness :
    (planLayout ⟨0, 0, 0, 8⟩ [(2, 3), (4, 1)]).cellW =
        (maxW [(2, 3), (4, 1)] : Int) ∧
    (planLayout ⟨0, 0, 0, 8⟩ [(2, 3), (4, 1)]).cellH =
        (maxH [(2, 3), (4, 1)] : Int) ∧
    ∀ p ∈ ([(2, 3), (4, 1)] : List (Nat × Nat)),
      1 ≤ scaleQ p.1 p.2 (planLayout ⟨0, 0, 0, 8⟩ [(2, 3), (4, 1)]).cellW
            (planLayout ⟨0, 0, 0, 8⟩ [(2, 3), (4, 1)]).cellH ∧
      (p.1 : Int) ≤
        (load_and_fit p.1 p.2 (planLayout ⟨0, 0, 0, 8⟩ [(2, 3), (4, 1)]).cellW
            (planLayout ⟨0, 0, 0, 8⟩ [(2, 3), (4, 1)]).cellH).newW ∧
      (p.2 : Int) ≤
        (load_and_fit p.1 p.2 (planLayout ⟨0, 0, 0, 8⟩ [(2, 3), (4, 1)]).cellW
            (planLayout ⟨0, 0, 0, 8⟩ [(2, 3), (4, 1)]).cellH).newH :=
  auto_cell_never_downscales ⟨0, 0, 0, 8⟩ [(2, 3), (4, 1)] (by decide) (by decide)
    (by decide)
